import Mathlib

/-!
Shallow embedding of `flavio/parameters.py` (repository Physolia/flavio).

The file embeds, over exact arithmetic, the parameter-reading pipeline:
the constraint store and quantity registry (modelled from the spec where the
implementation lives outside `src/`, in `flavio.classes`), the metadata and
value readers, the correlated-values reader with its covariance construction
and one-shot damping repair, and the PDG-derived quantities `flavio_m` and
`flavio_tau` together with the emission loop of `read_pdg`.

Floating point numbers of the particle pipeline are embedded as rationals;
the covariance pipeline, which needs square roots and eigenvalues, is
embedded over the reals.
-/

namespace FlavioParameters

/-- Modelled from the spec: the probability distribution objects produced by
this module (`flavio.statistics.probability`, not in `src/`). A
`NormalDistribution(central, sigma)` is parametrized by central value and
standard deviation; `AsymmetricNormalDistribution` by central value and
right/left deviations; `MultivariateNormalDistribution` by a vector of
central values and a covariance matrix. -/
inductive Dist where
  | normal (central stdDev : ℚ)
  | asymmetricNormal (central rightDeviation leftDeviation : ℚ)
  | multivariateNormal (n : ℕ) (central : Fin n → ℝ)
      (covariance : Matrix (Fin n) (Fin n) ℝ)

/-- Modelled from the spec: the variance of a single-variable
`NormalDistribution` is the square of its standard-deviation parameter; the
spec assigns no variance formula to the other variants here. -/
def Dist.varianceQ : Dist → Option ℚ
  | .normal _ σ => some (σ ^ 2)
  | _ => none

/-- Modelled from the spec: the process-wide state owned by `flavio.classes`
(not in `src/`): the quantity registry (registered parameter names with their
descriptive metadata) and the constraint store (a keyed collection mapping an
ordered group of quantity names to a distribution). -/
structure Store where
  registry : List String
  descriptions : String → Option String
  texs : String → Option String
  constraints : List (List String × Dist)

/-- Modelled from the spec: `Parameter(name)` registers a new quantity
(create semantics of the external registry). -/
def create_parameter (s : Store) (name : String) : Store :=
  { s with registry := name :: s.registry }

/-- Modelled from the spec: overwriting the description metadata of a
registered quantity (`p.description = ...`). -/
def set_description (s : Store) (name d : String) : Store :=
  { s with descriptions := fun m => if m = name then some d else s.descriptions m }

/-- Modelled from the spec: overwriting the tex metadata of a registered
quantity (`p.tex = ...`). -/
def set_tex (s : Store) (name t : String) : Store :=
  { s with texs := fun m => if m = name then some t else s.texs m }

/-- Modelled from the spec: `add_constraint(names, distribution)` appends a
new constraint associating the ordered name list with the distribution. -/
def add_constraint (s : Store) (names : List String) (d : Dist) : Store :=
  { s with constraints := s.constraints ++ [(names, d)] }

/-- Two name lists describe the same name-set (the keying used by
`remove_constraint` per the spec: removal matches the set of quantity names
involved). -/
def same_name_set (a b : List String) : Bool :=
  decide ((∀ x ∈ a, x ∈ b) ∧ (∀ x ∈ b, x ∈ a))

/-- Modelled from the spec: `remove_constraint(name)` removes all constraints
whose key matches the given name-set; a no-op when none match. -/
def remove_constraint (s : Store) (name : String) : Store :=
  { s with constraints :=
      s.constraints.filter (fun c => ! same_name_set c.1 [name]) }

/-- Modelled from the spec: `set_constraint(name, value)` builds a
single-quantity distribution from the value and adds it as a constraint on
that one name. The built distribution is taken as input here since the
uncertainty-string parser lives outside `src/`. -/
def set_constraint (s : Store) (name : String) (d : Dist) : Store :=
  add_constraint s [name] d

/-- Raw particle record, the external particle-data source interface:
mass and width with one-sided uncertainties. Width fields use an `Option`
sentinel: `none` is "undefined", distinct from `some 0`. String fields are
the inputs of the name construction in `flavio_m` and `flavio_tau`
(`latex_name_simplified` is taken as given data). -/
structure ParticleRecord where
  name : String
  flavioName : String
  latexNameSimplified : String
  mass : ℚ
  massUpper : ℚ
  massLower : ℚ
  width : Option ℚ
  widthUpper : Option ℚ
  widthLower : Option ℚ
deriving DecidableEq

/-- The data tuple returned by the derived-quantity properties:
`name, tex, description, central, right, left`. -/
structure QData where
  name : String
  tex : String
  description : String
  central : ℚ
  right : ℚ
  left : ℚ
deriving DecidableEq

/-- Embedding of `FlavioParticle.flavio_m`: unit conversion MeV to GeV on
central value and both uncertainties, plus deterministic name construction. -/
def flavio_m (p : ParticleRecord) : QData :=
  { name := "m_" ++ p.flavioName
    tex := "$m_\x7b" ++ p.latexNameSimplified ++ "\x7d$"
    description :=
      "$" ++ p.latexNameSimplified ++ "$"
        ++ (if p.name = "t" then " quark pole" else "") ++ " mass"
    central := p.mass * (1 / 1000)
    right := p.massUpper * (1 / 1000)
    left := p.massLower * (1 / 1000) }

/-- Embedding of `FlavioParticle.flavio_tau`. The guard embeds the Python
test `{width, width_upper, width_lower} & {None, 0}`: the result is `none`
as soon as any of the three fields is undefined or equal to zero. Otherwise
lifetime is the reciprocal of the converted width, with
`right = G_right/G_central^2` and `left = G_left/G_central^2` exactly as in
the source. The `Option.getD 0` extractions are guarded by the test above,
so they always read a `some` value. -/
def flavio_tau (p : ParticleRecord) : Option QData :=
  if p.width = none ∨ p.width = some 0 ∨ p.widthUpper = none ∨ p.widthUpper = some 0 ∨
      p.widthLower = none ∨ p.widthLower = some 0 then
    none
  else
    let Gcentral := (p.width.getD 0) * (1 / 1000)
    let Gright := (p.widthUpper.getD 0) * (1 / 1000)
    let Gleft := (p.widthLower.getD 0) * (1 / 1000)
    some
      { name := "tau_" ++ p.flavioName
        tex := "$\\tau_\x7b" ++ p.latexNameSimplified ++ "\x7d$"
        description := "$" ++ p.latexNameSimplified ++ "$ lifetime"
        central := 1 / Gcentral
        right := Gright / Gcentral ^ 2
        left := Gleft / Gcentral ^ 2 }

/-- Embedding of the distribution selection at the end of `read_pdg`:
equal right/left magnitudes give a `NormalDistribution`, different ones an
`AsymmetricNormalDistribution`. -/
def pdg_dist (central right left : ℚ) : Dist :=
  if right = left then .normal central right
  else .asymmetricNormal central right left

/-- Embedding of the per-quantity body of the `read_pdg` loop: look up the
parameter and remove its existing constraints if it exists, create it
otherwise; overwrite tex and description; add the fresh constraint. -/
def read_pdg_quantity (s : Store) (q : QData) : Store :=
  let s1 := if q.name ∈ s.registry then remove_constraint s q.name
            else create_parameter s q.name
  let s2 := set_description (set_tex s1 q.name q.tex) q.name q.description
  add_constraint s2 [q.name] (pdg_dist q.central q.right q.left)

/-- Embedding of the per-particle iteration of `read_pdg`: the mass quantity
is always emitted; the lifetime quantity is skipped (`continue`) when
`flavio_tau` yields `None`. -/
def read_pdg_particle (s : Store) (p : ParticleRecord) : Store :=
  let s1 := read_pdg_quantity s (flavio_m p)
  match flavio_tau p with
  | none => s1
  | some q => read_pdg_quantity s1 q

/-- One parsed YAML metadata entry. `none` embeds an absent key,
`some none` a key present with value `None`, `some (some v)` a key present
with a proper value. -/
structure MetaInfo where
  description : Option (Option String)
  tex : Option (Option String)
deriving DecidableEq

/-- Embedding of the loop body of `_read_yaml_object_metadata`:
`Parameter(name)` (create-or-reuse, modelled from the spec), then overwrite
description and tex only when the key is present with a non-None value. -/
def read_metadata_entry (s : Store) (name : String) (info : MetaInfo) : Store :=
  let s1 := if name ∈ s.registry then s else create_parameter s name
  let s2 := match info.description with
    | some (some d) => set_description s1 name d
    | _ => s1
  match info.tex with
  | some (some t) => set_tex s2 name t
  | _ => s2

/-- The errors raised by the value readers: the registry lookup
`Parameter[name]` raising on an unknown name (modelled from the spec), and
the fatal assertion of the correlated reader, which carries the offending
covariance matrix in its diagnostic. -/
inductive ReadError where
  | unknownQuantity
  | covarianceNotPositiveDefinite (n : ℕ) (covariance : Matrix (Fin n) (Fin n) ℝ)

/-- Embedding of the loop body of `_read_yaml_object_values`: the registry
lookup `Parameter[name]` raises before `set_constraint` runs, so a failing
entry returns an error and no mutated store. -/
def read_values_entry (s : Store) (name : String) (d : Dist) : Except ReadError Store :=
  if name ∈ s.registry then .ok (set_constraint s name d)
  else .error .unknownQuantity

/-- The output of `errors_from_string` (the uncertainty-string parser,
external to `src/`): a central value, symmetric error magnitudes, and
asymmetric (upper, lower) error pairs. -/
structure ErrorDict where
  central : ℝ
  symmetricErrors : List ℝ
  asymmetricErrors : List (ℝ × ℝ)

/-- Embedding of the error accumulation in
`_read_yaml_object_values_correlated`: starting from `0.`, add the square of
every symmetric error, then the product of the two magnitudes of every
asymmetric error pair. -/
noncomputable def squared_error (d : ErrorDict) : ℝ :=
  d.asymmetricErrors.foldl (fun acc p => acc + p.1 * p.2)
    (d.symmetricErrors.foldl (fun acc e => acc + e ^ 2) 0)

/-- Embedding of `errors.append(sqrt(squared_error))`: the per-quantity
total error. -/
noncomputable def total_error (d : ErrorDict) : ℝ :=
  Real.sqrt (squared_error d)

/-- Embedding of `np.outer(errors, errors) * correlation`: the entrywise
product of the outer product of the error vector with the correlation
matrix. -/
noncomputable def covariance_from_errors {n : ℕ} (errors : Fin n → ℝ)
    (correlation : Matrix (Fin n) (Fin n) ℝ) : Matrix (Fin n) (Fin n) ℝ :=
  Matrix.of fun i j => errors i * errors j * correlation i j

/-- Embedding of `(correlation - np.eye(n_dim))*0.99 + np.eye(n_dim)`:
the single damping repair pass, shrinking the off-diagonal part toward the
identity by the fixed factor 0.99. -/
noncomputable def damp_correlation {n : ℕ} (M : Matrix (Fin n) (Fin n) ℝ) :
    Matrix (Fin n) (Fin n) ℝ :=
  (99 / 100 : ℝ) • (M - 1) + 1

/-- Embedding of the test `np.all(np.linalg.eigvals(covariance) > 0)` on the
(real symmetric) covariance matrices built by the correlated reader: the
matrix is Hermitian and all its eigenvalues are strictly positive. The
lemma `all_eigvals_pos_iff_posDef` below identifies this with positive
definiteness. -/
def all_eigvals_pos {n : ℕ} (C : Matrix (Fin n) (Fin n) ℝ) : Prop :=
  ∃ h : C.IsHermitian, ∀ i, 0 < h.eigenvalues i

open Classical in
/-- Embedding of lines 61 to 69 of `parameters.py`: build the covariance,
test it; on failure apply the single damping pass and rebuild; if the rebuilt
covariance still fails the test, fail fatally with the offending matrix
(`Except.error` embeds the failing `assert`). -/
noncomputable def correlated_covariance {n : ℕ} (errors : Fin n → ℝ)
    (M : Matrix (Fin n) (Fin n) ℝ) :
    Except (Matrix (Fin n) (Fin n) ℝ) (Matrix (Fin n) (Fin n) ℝ) :=
  let C := covariance_from_errors errors M
  if all_eigvals_pos C then .ok C
  else
    let C2 := covariance_from_errors errors (damp_correlation M)
    if all_eigvals_pos C2 then .ok C2 else .error C2

/-- One correlated parameter group of the YAML list read by
`_read_yaml_object_values_correlated`: the parameter names, their parsed
error dictionaries, and the (already fixed) correlation matrix returned by
`_fix_correlation_matrix`. -/
structure CorrGroup (n : ℕ) where
  names : Fin n → String
  dicts : Fin n → ErrorDict
  correlation : Matrix (Fin n) (Fin n) ℝ

open Classical in
/-- Embedding of the per-group body of `_read_yaml_object_values_correlated`:
every name is looked up in the registry (the source raises at the first
unknown name; since that lookup is the only failure of the collection loop,
testing all names at once yields the same `Except` result), the per-quantity
total errors and central values are collected, the covariance is built with
the one-shot repair policy, and on success a single multivariate normal
constraint on the whole group is added. -/
noncomputable def read_values_correlated_group {n : ℕ} (s : Store)
    (g : CorrGroup n) : Except ReadError Store :=
  if ∀ i, g.names i ∈ s.registry then
    let errors : Fin n → ℝ := fun i => total_error (g.dicts i)
    let centrals : Fin n → ℝ := fun i => (g.dicts i).central
    match correlated_covariance errors g.correlation with
    | .ok C => .ok (add_constraint s ((List.finRange n).map g.names)
        (.multivariateNormal n centrals C))
    | .error C => .error (.covarianceNotPositiveDefinite n C)
  else .error .unknownQuantity

/-- The number of constraints of a store whose key matches the name-set of a
single quantity name. -/
def constraint_count (s : Store) (name : String) : ℕ :=
  (s.constraints.filter (fun c => same_name_set c.1 [name])).length

/-- A store with one registered quantity named `x`, used to evaluate the
readers on concrete inputs. -/
def sampleStore : Store :=
  { registry := ["x"]
    descriptions := fun _ => none
    texs := fun _ => none
    constraints := [] }

/-- A one-quantity correlated group on the quantity `x` with a single unit
symmetric error and trivial correlation. -/
noncomputable def sampleGroup : CorrGroup 1 :=
  { names := fun _ => "x"
    dicts := fun _ => { central := 0, symmetricErrors := [1], asymmetricErrors := [] }
    correlation := 1 }

/-- The embedded eigenvalue test coincides with positive definiteness: a real
matrix is Hermitian with strictly positive eigenvalues exactly when it is
positive definite. This justifies evaluating the test of
`correlated_covariance` through `Matrix.PosDef`. -/
theorem all_eigvals_pos_iff_posDef {n : ℕ} (C : Matrix (Fin n) (Fin n) ℝ) :
    all_eigvals_pos C ↔ C.PosDef := by
  constructor
  · rintro ⟨hH, hpos⟩
    have hsd : C.PosSemidef := hH.posSemidef_of_eigenvalues_nonneg fun i => (hpos i).le
    have hdet : C.det ≠ 0 := by
      rw [hH.det_eq_prod_eigenvalues]
      have hlt : (0 : ℝ) < ∏ i, hH.eigenvalues i := Finset.prod_pos fun i _ => hpos i
      exact_mod_cast hlt.ne'
    refine ⟨hH, fun x hx => ?_⟩
    rcases (hsd.2 x).lt_or_eq with h | h
    · exact h
    · exfalso
      have hCx : C.mulVec x = 0 := (hsd.dotProduct_mulVec_zero_iff x).mp h.symm
      have hinj : Function.Injective C.mulVec :=
        Matrix.mulVec_injective_iff_isUnit.mpr
          ((Matrix.isUnit_iff_isUnit_det C).mpr (isUnit_iff_ne_zero.mpr hdet))
      exact hx (hinj (by simp [hCx]))
  · intro h
    exact ⟨h.1, fun i => h.eigenvalues_pos i⟩

/-- C2: when the covariance built from the (fixed) correlation matrix fails
the strict-positive-eigenvalue test, the correlated-values reader applies
exactly one damping pass, rebuilding the covariance from
`(M - I) * 0.99 + I`; if the rebuilt covariance still fails the test it
fails fatally with the offending (damped) covariance matrix in the
diagnostic, and it never returns successfully with a covariance that fails
the eigenvalue test. -/
theorem correlated_covariance_one_repair {n : ℕ} (errors : Fin n → ℝ)
    (M : Matrix (Fin n) (Fin n) ℝ) :
    (¬ all_eigvals_pos (covariance_from_errors errors M) →
      ¬ all_eigvals_pos (covariance_from_errors errors (damp_correlation M)) →
      correlated_covariance errors M
        = .error (covariance_from_errors errors (damp_correlation M))) ∧
    (∀ C, correlated_covariance errors M = .ok C → all_eigvals_pos C) := by
  constructor
  · intro h1 h2
    simp only [correlated_covariance]
    rw [if_neg h1, if_neg h2]
  · intro C hC
    by_cases h1 : all_eigvals_pos (covariance_from_errors errors M)
    · simp only [correlated_covariance] at hC
      rw [if_pos h1] at hC
      cases hC
      exact h1
    · by_cases h2 : all_eigvals_pos (covariance_from_errors errors (damp_correlation M))
      · simp only [correlated_covariance] at hC
        rw [if_neg h1, if_pos h2] at hC
        cases hC
        exact h2
      · simp only [correlated_covariance] at hC
        rw [if_neg h1, if_neg h2] at hC
        exact (Except.noConfusion hC)

/-- Witness for C2: with a single quantity of total error 0 and trivial
correlation, the covariance is the zero matrix, which fails the eigenvalue
test before and after damping, and the reader reports the damped covariance
as the fatal diagnostic. -/
theorem correlated_covariance_one_repair_witness :
    ¬ all_eigvals_pos (covariance_from_errors ![(0 : ℝ)] (1 : Matrix (Fin 1) (Fin 1) ℝ)) ∧
    ¬ all_eigvals_pos (covariance_from_errors ![(0 : ℝ)]
        (damp_correlation (1 : Matrix (Fin 1) (Fin 1) ℝ))) ∧
    correlated_covariance ![(0 : ℝ)] (1 : Matrix (Fin 1) (Fin 1) ℝ)
      = .error (covariance_from_errors ![(0 : ℝ)]
          (damp_correlation (1 : Matrix (Fin 1) (Fin 1) ℝ))) := by
  have hzero : ∀ (M : Matrix (Fin 1) (Fin 1) ℝ),
      covariance_from_errors ![(0 : ℝ)] M = 0 := by
    intro M
    ext i j
    fin_cases i
    simp [covariance_from_errors]
  have hnot : ¬ all_eigvals_pos (0 : Matrix (Fin 1) (Fin 1) ℝ) := by
    rw [all_eigvals_pos_iff_posDef]
    rintro ⟨-, hq⟩
    have h3 := hq ![1] (by
      intro hc
      simpa using congrFun hc 0)
    simp [Matrix.zero_mulVec] at h3
  have h1 : ¬ all_eigvals_pos (covariance_from_errors ![(0 : ℝ)]
      (1 : Matrix (Fin 1) (Fin 1) ℝ)) := by
    rw [hzero]
    exact hnot
  have h2 : ¬ all_eigvals_pos (covariance_from_errors ![(0 : ℝ)]
      (damp_correlation (1 : Matrix (Fin 1) (Fin 1) ℝ))) := by
    rw [hzero]
    exact hnot
  exact ⟨h1, h2, (correlated_covariance_one_repair ![(0 : ℝ)] 1).1 h1 h2⟩

/-- C3: when the undamped covariance built from the correlation matrix
passes the strict-positive-eigenvalue test, the correlated-values reader
adds a multivariate normal constraint carrying exactly that covariance, so
damping is applied only when the undamped covariance fails the test. -/
theorem read_group_no_damping {n : ℕ} (s : Store) (g : CorrGroup n)
    (hreg : ∀ i, g.names i ∈ s.registry)
    (hpos : all_eigvals_pos
      (covariance_from_errors (fun i => total_error (g.dicts i)) g.correlation)) :
    read_values_correlated_group s g
      = .ok (add_constraint s ((List.finRange n).map g.names)
          (.multivariateNormal n (fun i => (g.dicts i).central)
            (covariance_from_errors (fun i => total_error (g.dicts i)) g.correlation))) := by
  simp only [read_values_correlated_group, correlated_covariance]
  rw [if_pos hreg, if_pos hpos]

/-- Witness for C3: on the sample one-quantity group the covariance is the
identity matrix, the test passes, and the reader returns exactly that
covariance inside the multivariate normal constraint. -/
theorem read_group_no_damping_witness :
    (∀ i, sampleGroup.names i ∈ sampleStore.registry) ∧
    all_eigvals_pos (covariance_from_errors
      (fun i => total_error (sampleGroup.dicts i)) sampleGroup.correlation) ∧
    read_values_correlated_group sampleStore sampleGroup
      = .ok (add_constraint sampleStore ((List.finRange 1).map sampleGroup.names)
          (.multivariateNormal 1 (fun i => (sampleGroup.dicts i).central)
            (covariance_from_errors
              (fun i => total_error (sampleGroup.dicts i)) sampleGroup.correlation))) := by
  have hreg : ∀ i, sampleGroup.names i ∈ sampleStore.registry := by
    intro i
    simp [sampleGroup, sampleStore]
  have ht : total_error { central := 0, symmetricErrors := [1], asymmetricErrors := [] } = 1 := by
    simp [total_error, squared_error]
  have hC : covariance_from_errors
      (fun i => total_error (sampleGroup.dicts i)) sampleGroup.correlation = 1 := by
    ext i j
    fin_cases i
    fin_cases j
    simp [covariance_from_errors, sampleGroup, ht]
  have hpos : all_eigvals_pos (covariance_from_errors
      (fun i => total_error (sampleGroup.dicts i)) sampleGroup.correlation) := by
    rw [all_eigvals_pos_iff_posDef, hC]
    exact Matrix.PosDef.one
  exact ⟨hreg, hpos, read_group_no_damping sampleStore sampleGroup hreg hpos⟩

/-- The accumulation loop over symmetric errors computes the sum of squares
on top of its initial value. -/
theorem foldl_add_sq (l : List ℝ) (a : ℝ) :
    l.foldl (fun acc e => acc + e ^ 2) a = a + (l.map fun e => e ^ 2).sum := by
  induction l generalizing a with
  | nil => simp
  | cons x t ih => simp [ih, add_assoc]

/-- The accumulation loop over asymmetric error pairs computes the sum of
upper-times-lower products on top of its initial value. -/
theorem foldl_add_mul (l : List (ℝ × ℝ)) (a : ℝ) :
    l.foldl (fun acc p => acc + p.1 * p.2) a = a + (l.map fun p => p.1 * p.2).sum := by
  induction l generalizing a with
  | nil => simp
  | cons x t ih => simp [ih, add_assoc]

/-- C4: the per-quantity total error used to build the covariance is the
square root of the sum of the squares of all symmetric error terms plus the
sum, over asymmetric pairs, of the product of the upper and lower
magnitudes. -/
theorem total_error_rss (d : ErrorDict) :
    total_error d
      = Real.sqrt ((d.symmetricErrors.map fun e => e ^ 2).sum
          + (d.asymmetricErrors.map fun p => p.1 * p.2).sum) := by
  unfold total_error squared_error
  rw [foldl_add_mul, foldl_add_sq, zero_add]

/-- C1 counterexample: on the record with width 1000, width_upper 100 and
width_lower 200 (so converted width G = 1, G_right = 0.1, G_left = 0.2),
`flavio_tau` returns right uncertainty 0.1 = G_right/G² and left uncertainty
0.2 = G_left/G²: the sides are not swapped, refuting the claimed values
τ_right = G_left/G² = 0.2 and τ_left = G_right/G² = 0.1. -/
theorem flavio_tau_swap_cex :
    flavio_tau
        { name := "X", flavioName := "X", latexNameSimplified := "X",
          mass := 0, massUpper := 0, massLower := 0,
          width := some 1000, widthUpper := some 100, widthLower := some 200 }
      = some
        { name := "tau_X", tex := "$\\tau_\x7bX\x7d$",
          description := "$X$ lifetime",
          central := 1, right := 1 / 10, left := 1 / 5 }
      ∧ (1 / 10 : ℚ) ≠ 1 / 5 := by
  refine ⟨?_, by norm_num⟩
  norm_num [flavio_tau, QData.mk.injEq]
  exact ⟨⟨by simp, by simp, by simp⟩, rfl, rfl, rfl⟩

/-- C1 (amended): for a record whose width and width uncertainties are all
defined and nonzero, `flavio_tau` returns central value 1/G for the
converted width G and does not swap the uncertainty sides: the propagated
right uncertainty is G_right/G² (from width_upper) and the propagated left
uncertainty is G_left/G² (from width_lower); in particular for G = 1,
G_right = 0.1, G_left = 0.2 it returns τ_central = 1, τ_right = 0.1,
τ_left = 0.2. -/
theorem flavio_tau_propagation (p : ParticleRecord) (w u l : ℚ)
    (hw : p.width = some w) (hu : p.widthUpper = some u) (hl : p.widthLower = some l)
    (hw0 : w ≠ 0) (hu0 : u ≠ 0) (hl0 : l ≠ 0) :
    flavio_tau p = some
      { name := "tau_" ++ p.flavioName
        tex := "$\\tau_\x7b" ++ p.latexNameSimplified ++ "\x7d$"
        description := "$" ++ p.latexNameSimplified ++ "$ lifetime"
        central := 1 / (w * (1 / 1000))
        right := (u * (1 / 1000)) / (w * (1 / 1000)) ^ 2
        left := (l * (1 / 1000)) / (w * (1 / 1000)) ^ 2 } := by
  have hguard : ¬ (p.width = none ∨ p.width = some 0 ∨ p.widthUpper = none ∨
      p.widthUpper = some 0 ∨ p.widthLower = none ∨ p.widthLower = some 0) := by
    simp [hw, hu, hl, hw0, hu0, hl0]
  unfold flavio_tau
  rw [if_neg hguard]
  simp [hw, hu, hl]

/-- Witness for C1 (amended): evaluation at the concrete record with
width 1000, width_upper 100, width_lower 200. -/
theorem flavio_tau_propagation_witness :
    flavio_tau
        { name := "X", flavioName := "X", latexNameSimplified := "X",
          mass := 0, massUpper := 0, massLower := 0,
          width := some 1000, widthUpper := some 100, widthLower := some 200 }
      = some
        { name := "tau_X", tex := "$\\tau_\x7bX\x7d$",
          description := "$X$ lifetime",
          central := 1, right := 1 / 10, left := 1 / 5 } := by
  exact (flavio_tau_propagation _ 1000 100 200 rfl rfl rfl
    (by norm_num) (by norm_num) (by norm_num)).trans
    (by norm_num [QData.mk.injEq]
        exact ⟨rfl, rfl, rfl⟩)

/-- The empty store: nothing registered, no metadata, no constraints. -/
def emptyStore : Store :=
  { registry := []
    descriptions := fun _ => none
    texs := fun _ => none
    constraints := [] }

/-- C5: for a record whose width is exactly zero or whose width or width
uncertainties are undefined, `flavio_tau` yields `None` and the `read_pdg`
loop skips the lifetime quantity without raising (no division happens),
while still emitting the mass quantity. -/
theorem flavio_tau_skip_undefined (s : Store) (p : ParticleRecord)
    (h : p.width = none ∨ p.width = some 0 ∨ p.widthUpper = none ∨ p.widthLower = none) :
    flavio_tau p = none ∧ read_pdg_particle s p = read_pdg_quantity s (flavio_m p) := by
  have htau : flavio_tau p = none := by
    unfold flavio_tau
    rw [if_pos (by tauto)]
  refine ⟨htau, ?_⟩
  simp only [read_pdg_particle, htau]

/-- Witness for C5: a record with undefined width produces no lifetime data
and only the mass quantity is emitted. -/
theorem flavio_tau_skip_undefined_witness :
    flavio_tau
        { name := "Y", flavioName := "Y", latexNameSimplified := "Y",
          mass := 1, massUpper := 1, massLower := 1,
          width := none, widthUpper := none, widthLower := none }
      = none ∧
    read_pdg_particle emptyStore
        { name := "Y", flavioName := "Y", latexNameSimplified := "Y",
          mass := 1, massUpper := 1, massLower := 1,
          width := none, widthUpper := none, widthLower := none }
      = read_pdg_quantity emptyStore (flavio_m
        { name := "Y", flavioName := "Y", latexNameSimplified := "Y",
          mass := 1, massUpper := 1, massLower := 1,
          width := none, widthUpper := none, widthLower := none }) :=
  flavio_tau_skip_undefined emptyStore _ (Or.inl rfl)

/-- C9: for a record whose width is defined and nonzero but whose
width_upper or width_lower is a defined zero, `flavio_tau` also yields
`None` and no lifetime quantity is emitted: the suppression test treats the
value 0 and the undefined sentinel identically. -/
theorem flavio_tau_skip_zero_uncertainty (s : Store) (p : ParticleRecord) (w : ℚ)
    (hw : p.width = some w) (hw0 : w ≠ 0)
    (h : p.widthUpper = some 0 ∨ p.widthLower = some 0) :
    flavio_tau p = none ∧ read_pdg_particle s p = read_pdg_quantity s (flavio_m p) := by
  have htau : flavio_tau p = none := by
    unfold flavio_tau
    rw [if_pos (by tauto)]
  refine ⟨htau, ?_⟩
  simp only [read_pdg_particle, htau]

/-- Witness for C9: a record with nonzero width but zero upper width
uncertainty produces no lifetime data and only the mass quantity is
emitted. -/
theorem flavio_tau_skip_zero_uncertainty_witness :
    flavio_tau
        { name := "Z", flavioName := "Z", latexNameSimplified := "Z",
          mass := 1, massUpper := 1, massLower := 1,
          width := some 1, widthUpper := some 0, widthLower := some 1 }
      = none ∧
    read_pdg_particle emptyStore
        { name := "Z", flavioName := "Z", latexNameSimplified := "Z",
          mass := 1, massUpper := 1, massLower := 1,
          width := some 1, widthUpper := some 0, widthLower := some 1 }
      = read_pdg_quantity emptyStore (flavio_m
        { name := "Z", flavioName := "Z", latexNameSimplified := "Z",
          mass := 1, massUpper := 1, massLower := 1,
          width := some 1, widthUpper := some 0, widthLower := some 1 }) :=
  flavio_tau_skip_zero_uncertainty emptyStore _ 1 rfl one_ne_zero (Or.inl rfl)

/-- C6: the constraint appended by the `read_pdg` loop for a derived
quantity is a single-variable normal whose standard deviation is the common
magnitude when the propagated upper and lower uncertainties are equal (so
its variance is the square of that magnitude), and an asymmetric normal with
right deviation the upper magnitude and left deviation the lower magnitude
when they differ. -/
theorem pdg_distribution_selection (s : Store) (q : QData) :
    (q.right = q.left →
      (read_pdg_quantity s q).constraints.getLast?
          = some ([q.name], Dist.normal q.central q.right) ∧
        Dist.varianceQ (Dist.normal q.central q.right) = some (q.right ^ 2)) ∧
    (q.right ≠ q.left →
      (read_pdg_quantity s q).constraints.getLast?
          = some ([q.name], Dist.asymmetricNormal q.central q.right q.left)) := by
  constructor
  · intro h
    refine ⟨?_, rfl⟩
    simp only [read_pdg_quantity, add_constraint]
    rw [List.getLast?_concat]
    simp [pdg_dist, h]
  · intro h
    simp only [read_pdg_quantity, add_constraint]
    rw [List.getLast?_concat]
    simp [pdg_dist, h]

/-- Witness for C6: upper = lower = 0.1 yields a symmetric normal with
standard deviation 0.1 and variance 0.01; upper = 0.1, lower = 0.2 yields an
asymmetric normal with right deviation 0.1 and left deviation 0.2. -/
theorem pdg_distribution_selection_witness :
    (read_pdg_quantity emptyStore
        { name := "q", tex := "t", description := "d",
          central := 1, right := 1 / 10, left := 1 / 10 }).constraints.getLast?
        = some (["q"], Dist.normal 1 (1 / 10)) ∧
    Dist.varianceQ (Dist.normal 1 (1 / 10)) = some (1 / 100) ∧
    (read_pdg_quantity emptyStore
        { name := "q", tex := "t", description := "d",
          central := 1, right := 1 / 10, left := 1 / 5 }).constraints.getLast?
        = some (["q"], Dist.asymmetricNormal 1 (1 / 10) (1 / 5)) := by
  refine ⟨((pdg_distribution_selection emptyStore _).1 rfl).1, ?_,
    (pdg_distribution_selection emptyStore _).2 (by norm_num)⟩
  exact (((pdg_distribution_selection emptyStore
    { name := "q", tex := "t", description := "d",
      central := 1, right := 1 / 10, left := 1 / 10 }).1 rfl).2).trans (by norm_num)

/-- C8: a parameter name absent from the quantity registry makes the plain
values reader fail with the unknown-quantity error before `set_constraint`
runs, and makes the correlated reader fail the same way for any group
containing that name before any constraint is added; the error return
carries no mutated store. -/
theorem unknown_quantity_rejection (s : Store) (name : String) (d : Dist)
    (hn : name ∉ s.registry) :
    read_values_entry s name d = .error .unknownQuantity ∧
    ∀ {n : ℕ} (g : CorrGroup n), (∃ i, g.names i = name) →
      read_values_correlated_group s g = .error .unknownQuantity := by
  constructor
  · unfold read_values_entry
    rw [if_neg hn]
  · intro n g h
    obtain ⟨i, hi⟩ := h
    unfold read_values_correlated_group
    rw [if_neg]
    intro hall
    exact hn (hi ▸ hall i)

/-- Witness for C8: the name `b` is not registered in the empty store, so
both readers reject it with the unknown-quantity error. -/
theorem unknown_quantity_rejection_witness :
    "b" ∉ emptyStore.registry ∧
    read_values_entry emptyStore "b" (Dist.normal 0 1) = .error .unknownQuantity ∧
    read_values_correlated_group emptyStore
        { names := fun _ : Fin 1 => "b",
          dicts := fun _ => { central := 0, symmetricErrors := [], asymmetricErrors := [] },
          correlation := 1 }
      = .error .unknownQuantity := by
  have hn : "b" ∉ emptyStore.registry := by simp [emptyStore]
  exact ⟨hn, (unknown_quantity_rejection emptyStore "b" (Dist.normal 0 1) hn).1,
    (unknown_quantity_rejection emptyStore "b" (Dist.normal 0 1) hn).2 _ ⟨0, rfl⟩⟩

/-- C10: the metadata reader never touches the constraint store; it
overwrites the description only when the entry carries a present, non-None
description value, and likewise for tex; otherwise the metadata fields are
left unchanged. -/
theorem read_metadata_frame (s : Store) (name : String) (info : MetaInfo) :
    (read_metadata_entry s name info).constraints = s.constraints ∧
    ((info.description = none ∨ info.description = some none) →
      (read_metadata_entry s name info).descriptions = s.descriptions) ∧
    (∀ d, info.description = some (some d) →
      (read_metadata_entry s name info).descriptions
        = fun m => if m = name then some d else s.descriptions m) ∧
    ((info.tex = none ∨ info.tex = some none) →
      (read_metadata_entry s name info).texs = s.texs) ∧
    (∀ t, info.tex = some (some t) →
      (read_metadata_entry s name info).texs
        = fun m => if m = name then some t else s.texs m) := by
  obtain ⟨di, ti⟩ := info
  refine ⟨?_, ?_, ?_, ?_, ?_⟩
  · rcases di with _ | (_ | d) <;> rcases ti with _ | (_ | t) <;>
      by_cases hr : name ∈ s.registry <;>
      simp [read_metadata_entry, set_description, set_tex, create_parameter, hr]
  · rintro (h | h) <;> cases h <;> rcases ti with _ | (_ | t) <;>
      by_cases hr : name ∈ s.registry <;>
      simp [read_metadata_entry, set_description, set_tex, create_parameter, hr]
  · rintro d rfl
    rcases ti with _ | (_ | t) <;> by_cases hr : name ∈ s.registry <;>
      simp [read_metadata_entry, set_description, set_tex, create_parameter, hr]
  · rintro (h | h) <;> cases h <;> rcases di with _ | (_ | d) <;>
      by_cases hr : name ∈ s.registry <;>
      simp [read_metadata_entry, set_description, set_tex, create_parameter, hr]
  · rintro t rfl
    rcases di with _ | (_ | d) <;> by_cases hr : name ∈ s.registry <;>
      simp [read_metadata_entry, set_description, set_tex, create_parameter, hr]

/-- Witness for C10: an entry with a present description and an absent tex
updates exactly the description metadata of its name, leaves tex untouched,
and leaves the constraints untouched. -/
theorem read_metadata_frame_witness :
    (read_metadata_entry emptyStore "p"
        { description := some (some "D"), tex := none }).constraints
      = emptyStore.constraints ∧
    (read_metadata_entry emptyStore "p"
        { description := some (some "D"), tex := none }).descriptions
      = (fun m => if m = "p" then some "D" else emptyStore.descriptions m) ∧
    (read_metadata_entry emptyStore "p"
        { description := some (some "D"), tex := none }).texs
      = emptyStore.texs :=
  ⟨(read_metadata_frame emptyStore "p" _).1,
   (read_metadata_frame emptyStore "p" _).2.2.1 "D" rfl,
   (read_metadata_frame emptyStore "p" _).2.2.2.1 (Or.inl rfl)⟩

/-- `same_name_set` decides mutual membership of the two name lists. -/
theorem same_name_set_iff {a b : List String} :
    same_name_set a b = true ↔ ((∀ x ∈ a, x ∈ b) ∧ (∀ x ∈ b, x ∈ a)) := by
  simp [same_name_set]

/-- A singleton name list matches itself. -/
theorem same_name_set_self (a : String) : same_name_set [a] [a] = true := by
  simp [same_name_set]

/-- Distinct singleton name lists do not match. -/
theorem same_name_set_singleton_ne {a b : String} (h : a ≠ b) :
    same_name_set [a] [b] = false := by
  simp [same_name_set, h]

/-- A key can match at most one singleton name-set. -/
theorem same_name_set_singleton_unique {k : List String} {a b : String}
    (ha : same_name_set k [a] = true) (hb : same_name_set k [b] = true) : a = b := by
  rw [same_name_set_iff] at ha hb
  have h1 : a ∈ k := ha.2 a (by simp)
  simpa using hb.1 a h1

/-- After removing the constraints keyed to a name, none keyed to it
remain. -/
theorem filter_same_of_filter_not (l : List (List String × Dist)) (name : String) :
    (l.filter (fun c => ! same_name_set c.1 [name])).filter
        (fun c => same_name_set c.1 [name]) = [] := by
  induction l with
  | nil => rfl
  | cons c t ih =>
    cases hsc : same_name_set c.1 [name] <;> simp [List.filter_cons, hsc, ih]

/-- Removing the constraints keyed to one name leaves those keyed to any
other name untouched. -/
theorem filter_same_of_filter_not_other (l : List (List String × Dist)) {a b : String}
    (hne : b ≠ a) :
    (l.filter (fun c => ! same_name_set c.1 [a])).filter
        (fun c => same_name_set c.1 [b])
      = l.filter (fun c => same_name_set c.1 [b]) := by
  induction l with
  | nil => rfl
  | cons c t ih =>
    cases hA : same_name_set c.1 [a]
    · cases hB : same_name_set c.1 [b] <;> simp [List.filter_cons, hA, hB, ih]
    · cases hB : same_name_set c.1 [b]
      · simp [List.filter_cons, hA, hB, ih]
      · exact absurd (same_name_set_singleton_unique hB hA) hne

/-- The constraints of a store after one `read_pdg` quantity emission:
existing constraints on the name are removed exactly when the name was
registered, and the fresh constraint is appended. -/
theorem read_pdg_quantity_constraints (s : Store) (q : QData) :
    (read_pdg_quantity s q).constraints
      = (if q.name ∈ s.registry then
            s.constraints.filter (fun c => ! same_name_set c.1 [q.name])
          else s.constraints)
        ++ [([q.name], pdg_dist q.central q.right q.left)] := by
  by_cases h : q.name ∈ s.registry <;>
    simp [read_pdg_quantity, remove_constraint, create_parameter,
      set_description, set_tex, add_constraint, h]

/-- The registry after one `read_pdg` quantity emission: unchanged when the
name was registered, extended by the name otherwise. -/
theorem read_pdg_quantity_registry (s : Store) (q : QData) :
    (read_pdg_quantity s q).registry
      = if q.name ∈ s.registry then s.registry else q.name :: s.registry := by
  by_cases h : q.name ∈ s.registry <;>
    simp [read_pdg_quantity, remove_constraint, create_parameter,
      set_description, set_tex, add_constraint, h]

/-- Emission never unregisters a name. -/
theorem mem_registry_read_pdg_quantity (s : Store) (q : QData) {x : String}
    (hx : x ∈ s.registry) : x ∈ (read_pdg_quantity s q).registry := by
  rw [read_pdg_quantity_registry]
  by_cases h : q.name ∈ s.registry <;> simp [h, hx]

/-- After emitting a quantity its name is registered. -/
theorem self_mem_registry_read_pdg_quantity (s : Store) (q : QData) :
    q.name ∈ (read_pdg_quantity s q).registry := by
  rw [read_pdg_quantity_registry]
  by_cases h : q.name ∈ s.registry <;> simp [h]

/-- Emitting a quantity whose name is registered leaves exactly one
constraint keyed to that name. -/
theorem constraint_count_emit_self (s : Store) (q : QData)
    (h : q.name ∈ s.registry) :
    constraint_count (read_pdg_quantity s q) q.name = 1 := by
  unfold constraint_count
  rw [read_pdg_quantity_constraints, if_pos h, List.filter_append,
    filter_same_of_filter_not]
  simp [List.filter_cons, same_name_set_self]

/-- Emitting a quantity does not change the number of constraints keyed to
any other name. -/
theorem constraint_count_emit_other (s : Store) (q : QData) {name : String}
    (hne : name ≠ q.name) :
    constraint_count (read_pdg_quantity s q) name = constraint_count s name := by
  unfold constraint_count
  rw [read_pdg_quantity_constraints, List.filter_append]
  have hnew : same_name_set [q.name] [name] = false :=
    same_name_set_singleton_ne (Ne.symm hne)
  by_cases h : q.name ∈ s.registry
  · rw [if_pos h, filter_same_of_filter_not_other _ hne]
    simp [List.filter_cons, hnew]
  · rw [if_neg h]
    simp [List.filter_cons, hnew]

/-- C7: the `read_pdg` emission removes the existing constraints on an
already-registered derived-quantity name before adding the fresh one, leaves
the registry unchanged in that case, registers the name only when it was
absent, and therefore reading the same particle twice leaves exactly one
mass constraint and exactly one lifetime constraint for that particle. -/
theorem read_pdg_reload_idempotent (s : Store) (p : ParticleRecord) (q : QData)
    (htau : flavio_tau p = some q) (hne : (flavio_m p).name ≠ q.name) :
    (∀ r : QData, r.name ∈ s.registry →
      (read_pdg_quantity s r).constraints
          = s.constraints.filter (fun c => ! same_name_set c.1 [r.name])
            ++ [([r.name], pdg_dist r.central r.right r.left)] ∧
        (read_pdg_quantity s r).registry = s.registry) ∧
    (∀ r : QData, r.name ∉ s.registry →
      (read_pdg_quantity s r).constraints
          = s.constraints ++ [([r.name], pdg_dist r.central r.right r.left)] ∧
        (read_pdg_quantity s r).registry = r.name :: s.registry) ∧
    constraint_count (read_pdg_particle (read_pdg_particle s p) p)
      (flavio_m p).name = 1 ∧
    constraint_count (read_pdg_particle (read_pdg_particle s p) p) q.name = 1 := by
  have hproc : ∀ t, read_pdg_particle t p
      = read_pdg_quantity (read_pdg_quantity t (flavio_m p)) q := by
    intro t
    simp [read_pdg_particle, htau]
  refine ⟨?_, ?_, ?_, ?_⟩
  · intro r hr
    exact ⟨by rw [read_pdg_quantity_constraints, if_pos hr],
           by rw [read_pdg_quantity_registry, if_pos hr]⟩
  · intro r hr
    exact ⟨by rw [read_pdg_quantity_constraints, if_neg hr],
           by rw [read_pdg_quantity_registry, if_neg hr]⟩
  · rw [hproc, hproc]
    have h1 : (flavio_m p).name ∈ (read_pdg_quantity s (flavio_m p)).registry :=
      self_mem_registry_read_pdg_quantity s (flavio_m p)
    have h2 : (flavio_m p).name
        ∈ (read_pdg_quantity (read_pdg_quantity s (flavio_m p)) q).registry :=
      mem_registry_read_pdg_quantity _ q h1
    rw [constraint_count_emit_other _ _ hne]
    exact constraint_count_emit_self _ (flavio_m p) h2
  · rw [hproc, hproc]
    have h1 : q.name
        ∈ (read_pdg_quantity (read_pdg_quantity s (flavio_m p)) q).registry :=
      self_mem_registry_read_pdg_quantity _ q
    have h2 : q.name
        ∈ (read_pdg_quantity
            (read_pdg_quantity (read_pdg_quantity s (flavio_m p)) q)
            (flavio_m p)).registry :=
      mem_registry_read_pdg_quantity _ (flavio_m p) h1
    exact constraint_count_emit_self _ q h2

/-- Witness for C7: reading the concrete particle `X` twice from the sample
store leaves exactly one mass constraint and one lifetime constraint. -/
theorem read_pdg_reload_idempotent_witness :
    flavio_tau
        { name := "X", flavioName := "X", latexNameSimplified := "X",
          mass := 0, massUpper := 0, massLower := 0,
          width := some 1000, widthUpper := some 100, widthLower := some 200 }
      = some
        { name := "tau_X", tex := "$\\tau_\x7bX\x7d$",
          description := "$X$ lifetime",
          central := 1, right := 1 / 10, left := 1 / 5 } ∧
    (flavio_m
        { name := "X", flavioName := "X", latexNameSimplified := "X",
          mass := 0, massUpper := 0, massLower := 0,
          width := some 1000, widthUpper := some 100, widthLower := some 200 }).name
      ≠ "tau_X" ∧
    constraint_count
      (read_pdg_particle
        (read_pdg_particle sampleStore
          { name := "X", flavioName := "X", latexNameSimplified := "X",
            mass := 0, massUpper := 0, massLower := 0,
            width := some 1000, widthUpper := some 100, widthLower := some 200 })
        { name := "X", flavioName := "X", latexNameSimplified := "X",
          mass := 0, massUpper := 0, massLower := 0,
          width := some 1000, widthUpper := some 100, widthLower := some 200 })
      (flavio_m
        { name := "X", flavioName := "X", latexNameSimplified := "X",
          mass := 0, massUpper := 0, massLower := 0,
          width := some 1000, widthUpper := some 100, widthLower := some 200 }).name
      = 1 ∧
    constraint_count
      (read_pdg_particle
        (read_pdg_particle sampleStore
          { name := "X", flavioName := "X", latexNameSimplified := "X",
            mass := 0, massUpper := 0, massLower := 0,
            width := some 1000, widthUpper := some 100, widthLower := some 200 })
        { name := "X", flavioName := "X", latexNameSimplified := "X",
          mass := 0, massUpper := 0, massLower := 0,
          width := some 1000, widthUpper := some 100, widthLower := some 200 })
      "tau_X" = 1 := by
  have htau : flavio_tau
      { name := "X", flavioName := "X", latexNameSimplified := "X",
        mass := 0, massUpper := 0, massLower := 0,
        width := some 1000, widthUpper := some 100, widthLower := some 200 }
      = some
      { name := "tau_X", tex := "$\\tau_\x7bX\x7d$",
        description := "$X$ lifetime",
        central := 1, right := 1 / 10, left := 1 / 5 } := by
    norm_num [flavio_tau, QData.mk.injEq]
    exact ⟨⟨by simp, by simp, by simp⟩, rfl, rfl, rfl⟩
  have hne : (flavio_m
      { name := "X", flavioName := "X", latexNameSimplified := "X",
        mass := 0, massUpper := 0, massLower := 0,
        width := some 1000, widthUpper := some 100, widthLower := some 200 }).name
      ≠ "tau_X" := by
    intro h
    simp [flavio_m] at h
  have h := read_pdg_reload_idempotent sampleStore
    { name := "X", flavioName := "X", latexNameSimplified := "X",
      mass := 0, massUpper := 0, massLower := 0,
      width := some 1000, widthUpper := some 100, widthLower := some 200 }
    { name := "tau_X", tex := "$\\tau_\x7bX\x7d$",
      description := "$X$ lifetime",
      central := 1, right := 1 / 10, left := 1 / 5 }
    htau hne
  exact ⟨htau, hne, h.2.2.1, h.2.2.2⟩

end FlavioParameters
